import Mathlib

/-!
Verification of the persistent singly-linked list library
(repository `mccs-cpp-lists`).

The repository contains several C++ realizations of the same list
contract.  We embed the ones the claims refer to:

* the pure, value-level recursions shared by `ListV7/ImmutableList.hpp`
  (type `List<A> = std::shared_ptr<Node<A>>`) and by the canonical
  reference-counted class `prelude::list` — modelled on the inductive
  type `MList`;
* the `prelude::list` variants that differ only in the error payload or
  in iteration strategy (`part_008` / `part_004` variants of `take` and
  `init`, indexed access `operator[]`);
* a small mutable-heap model for the claims that speak about node
  identity, reference counts and in-place mutation
  (`prelude::list::operator=`, the rvalue append splice
  `operator+ ( list&&, list const& )`, and the tail of the
  shared-pointer "transparent move" variant).
-/

/-- Value-level model of a C++ list: `std::shared_ptr<Node<A>>` is either
null (the empty list) or a node holding a datum and the shared tail. -/
inductive MList (α : Type) : Type
  | nil : MList α
  | cons (datum : α) (tail : MList α) : MList α
deriving DecidableEq

namespace MList

variable {α : Type}

/-- Converts the model to a Lean `List` of the stored values (the order
of the chain). Used only to state properties, not part of the source. -/
def toList : MList α → List α
  | .nil => []
  | .cons x t => x :: toList t

/-- Builds an `MList` from a Lean `List`; inverse of `toList`. -/
def ofList : List α → MList α
  | [] => .nil
  | x :: t => .cons x (ofList t)

theorem ofList_toList (xs : MList α) : ofList (toList xs) = xs := by
  induction xs with
  | nil => rfl
  | cons x t ih => simp [toList, ofList, ih]

theorem toList_ofList (l : List α) : toList (ofList l) = l := by
  induction l with
  | nil => rfl
  | cons x t ih => simp [toList, ofList, ih]

theorem toList_injective {xs ys : MList α} (h : toList xs = toList ys) :
    xs = ys := by
  have h2 := congrArg ofList h
  rwa [ofList_toList, ofList_toList] at h2

end MList

/-- ImmutableList.hpp `length`: `if null xs then 0 else 1 + length (tail xs)`. -/
def lengthImm {α : Type} : MList α → Nat
  | .nil => 0
  | .cons _ t => 1 + lengthImm t

/-- ImmutableList.hpp `operator+` (append):
`if null xs then ys else head xs | (tail xs + ys)`. -/
def appendImm {α : Type} : MList α → MList α → MList α
  | .nil, ys => ys
  | .cons x t, ys => .cons x (appendImm t ys)

/-- ImmutableList.hpp `take`:
`if k == 0 or null xs then EMPTY else head xs | take (k-1) (tail xs)`. -/
def takeImm {α : Type} : Nat → MList α → MList α
  | 0, _ => .nil
  | _ + 1, .nil => .nil
  | k + 1, .cons x t => .cons x (takeImm k t)

/-- ImmutableList.hpp `drop`:
`if k == 0 or null xs then xs else drop (k-1) (tail xs)`. -/
def dropImm {α : Type} : Nat → MList α → MList α
  | 0, xs => xs
  | _ + 1, .nil => .nil
  | k + 1, .cons _ t => dropImm k t

/-- ImmutableList.hpp `reverse`, inner accumulator lambda `rev`:
`if null xs then ys else rev (tail xs) (head xs | ys)`. -/
def revAcc {α : Type} : MList α → MList α → MList α
  | .nil, ys => ys
  | .cons x t, ys => revAcc t (.cons x ys)

/-- ImmutableList.hpp `reverse`: `rev xs EMPTY`. -/
def reverseImm {α : Type} (xs : MList α) : MList α := revAcc xs .nil

theorem toList_lengthImm {α : Type} (xs : MList α) :
    lengthImm xs = (MList.toList xs).length := by
  induction xs with
  | nil => rfl
  | cons x t ih => simp [lengthImm, MList.toList, ih, Nat.add_comm]

theorem toList_appendImm {α : Type} (xs ys : MList α) :
    MList.toList (appendImm xs ys) = MList.toList xs ++ MList.toList ys := by
  induction xs with
  | nil => rfl
  | cons x t ih => simp [appendImm, MList.toList, ih]

theorem toList_takeImm {α : Type} (k : Nat) (xs : MList α) :
    MList.toList (takeImm k xs) = (MList.toList xs).take k := by
  induction xs generalizing k with
  | nil => cases k <;> rfl
  | cons x t ih =>
    cases k with
    | zero => rfl
    | succ k => simp [takeImm, MList.toList, ih]

theorem toList_dropImm {α : Type} (k : Nat) (xs : MList α) :
    MList.toList (dropImm k xs) = (MList.toList xs).drop k := by
  induction xs generalizing k with
  | nil => cases k <;> rfl
  | cons x t ih =>
    cases k with
    | zero => rfl
    | succ k => simp [dropImm, MList.toList, ih]

theorem toList_revAcc {α : Type} (xs ys : MList α) :
    MList.toList (revAcc xs ys) =
      (MList.toList xs).reverse ++ MList.toList ys := by
  induction xs generalizing ys with
  | nil => simp [revAcc, MList.toList]
  | cons x t ih => simp [revAcc, MList.toList, ih]

theorem toList_reverseImm {α : Type} (xs : MList α) :
    MList.toList (reverseImm xs) = (MList.toList xs).reverse := by
  simp [reverseImm, toList_revAcc, MList.toList]

/-!
Error-raising operations.  The canonical `prelude::list` functions throw
`std::domain_error("prelude::<op>: empty list")`; the
`ImmutableList.hpp` functions instead execute `throw xs;`, i.e. they
throw the (empty) list value itself.  We model a computation that may
throw a value of type `ε` as `Except ε`.
-/

/-- Model of the exceptions thrown by the canonical `prelude::list`
operations: a `std::domain_error` carrying a message string. -/
inductive PErr : Type
  | domainError (msg : String) : PErr
deriving DecidableEq

/-- Canonical `prelude::list` `head`:
`if null xs then throw domain_error("prelude::head: empty list") else xs._rep->_head`. -/
def headP {α : Type} : MList α → Except PErr α
  | .nil => .error (.domainError "prelude::head: empty list")
  | .cons x _ => .ok x

/-- Canonical `prelude::list` `tail`:
`if null xs then throw domain_error("prelude::tail: empty list") else list(xs._rep->_tail)`. -/
def tailP {α : Type} : MList α → Except PErr (MList α)
  | .nil => .error (.domainError "prelude::tail: empty list")
  | .cons _ t => .ok t

/-- Canonical `prelude::list` `last`: throws on empty, returns the head
when the tail is empty, otherwise recurses on the tail. -/
def lastP {α : Type} : MList α → Except PErr α
  | .nil => .error (.domainError "prelude::last: empty list")
  | .cons x .nil => .ok x
  | .cons _ (.cons y t) => lastP (.cons y t)

/-- Canonical `prelude::list` `init`: throws on empty, returns the empty
tail when the tail is empty, otherwise `head xs | init (tail xs)`. -/
def initP {α : Type} : MList α → Except PErr (MList α)
  | .nil => .error (.domainError "prelude::init: empty list")
  | .cons _ .nil => .ok .nil
  | .cons x (.cons y t) => (initP (.cons y t)).map (fun ys => .cons x ys)

/-- ImmutableList.hpp `head`: `if null xs then throw xs else xs->_datum`.
The thrown payload is the list value itself. -/
def headI {α : Type} : MList α → Except (MList α) α
  | .nil => .error .nil
  | .cons x _ => .ok x

/-- ImmutableList.hpp `tail`: `if null xs then throw xs else xs->_tail`.
The thrown payload is the list value itself. -/
def tailI {α : Type} : MList α → Except (MList α) (MList α)
  | .nil => .error .nil
  | .cons _ t => .ok t

/-- ImmutableList.hpp `init`: throws the list on empty; returns the
empty tail when the tail is empty, else `head xs | init (tail xs)`. -/
def initI {α : Type} : MList α → Except (MList α) (MList α)
  | .nil => .error .nil
  | .cons _ .nil => .ok .nil
  | .cons x (.cons y t) => (initI (.cons y t)).map (fun ys => .cons x ys)

/-- `List::operator[]` of the `part_008` / `part_004` variants:
`if !_head then throw EMPTY; if k == 0 then head(*this) else tail(*this)[k-1]`.
The thrown payload on out-of-range access is the class-scoped EMPTY
list value, carrying no index information. -/
def listIdx {α : Type} : MList α → Nat → Except (MList α) α
  | .nil, _ => .error .nil
  | .cons x _, 0 => .ok x
  | .cons _ t, k + 1 => listIdx t k

/-- The body of the copy loop in the `part_008` variant of `take`:
`while (--k > 0 && (from = from->_tail)) to = to->_tail = new Node(from->_datum)`,
copying up to `k` further elements of the chain. -/
def takeLoopV8 {α : Type} : Nat → MList α → MList α
  | 0, _ => .nil
  | _ + 1, .nil => .nil
  | k + 1, .cons x t => .cons x (takeLoopV8 k t)

/-- `take` of the `part_008` / `part_004` variants:
`if k <= 0 or !from then return xs; ys = List(from->_datum);` then the
copy loop.  Note that for `k == 0` it returns `xs` itself, not EMPTY. -/
def takeV8 {α : Type} : Nat → MList α → MList α
  | 0, xs => xs
  | _ + 1, .nil => .nil
  | k + 1, .cons x t => .cons x (takeLoopV8 k t)

/-- The copy loop of the `part_008` / `part_004` variant of `init`:
`while ((from = from->_tail)) to = to->_tail = new Node(from->_datum)`,
which copies every remaining node of the chain. -/
def initCopyLoopV8 {α : Type} : MList α → MList α
  | .nil => .nil
  | .cons x t => .cons x (initCopyLoopV8 t)

/-- `init` of the `part_008` / `part_004` variants: throws the list on
empty; otherwise builds `List ys(from->_datum)` and then runs the copy
loop over the whole remaining chain. -/
def initV8 {α : Type} : MList α → Except (MList α) (MList α)
  | .nil => .error .nil
  | .cons x t => .ok (.cons x (initCopyLoopV8 t))

/-!
String rendering.  Element printing (`os << datum`) is parametrized by
a rendering function for the element type.
-/

/-- The shared printing loop `while ((n = n->_tail)) os << ',' << datum`:
each further element is preceded by a comma. -/
def renderRest {α : Type} (s : α → String) : MList α → String
  | .nil => ""
  | .cons x t => "," ++ s x ++ renderRest s t

/-- Canonical `prelude::list` `operator<<`: prints `[`, then (if the
list is non-empty) the first datum followed by the comma loop, then `]`.
The brackets are printed unconditionally. -/
def renderP {α : Type} (s : α → String) : MList α → String
  | .nil => "[" ++ "]"
  | .cons x t => "[" ++ s x ++ renderRest s t ++ "]"

/-- ImmutableList.hpp `operator<<` (same shape in `part_002`,
`part_004`, `part_008`): the whole output, brackets included, is inside
`if (n) { ... }`, so an empty list produces no output at all. -/
def renderImm {α : Type} (s : α → String) : MList α → String
  | .nil => ""
  | .cons x t => "[" ++ s x ++ renderRest s t ++ "]"

/-- Comma-separation of a list of strings, as the specification words
it ("values comma-separated in order").  Spec-side definition used to
compare the source renderers against section 4.3 of the spec. -/
def commaSep : List String → String
  | [] => ""
  | [x] => x
  | x :: y :: t => x ++ "," ++ commaSep (y :: t)

/-- Rendering as the specification words it: `[`, the values
comma-separated in list order, `]`.  This definition follows the spec
(section 4.3), to be compared with the source renderers. -/
def specRender {α : Type} (s : α → String) (xs : MList α) : String :=
  "[" ++ commaSep ((MList.toList xs).map s) ++ "]"

theorem renderRest_commaSep {α : Type} (s : α → String) (x : α)
    (t : MList α) :
    s x ++ renderRest s t = commaSep ((MList.toList (.cons x t)).map s) := by
  induction t generalizing x with
  | nil => simp [renderRest, MList.toList, commaSep]
  | cons y u ih =>
    have hy := ih y
    simp only [MList.toList, List.map, renderRest] at hy ⊢
    rw [commaSep, ← hy]
    simp [String.append_assoc]

/-!
Heap model for the shared-pointer lists (ImmutableList.hpp and the
"transparent move" header).  A node lives at an address and stores a
datum and an optional tail address; a handle is `none` (null) or an
address.  Reference counts are implicit in `std::shared_ptr` and are
not part of this model; it serves the claims about node identity and
mutation.
-/

/-- A `Node<A>` of the shared-pointer lists: an element value and the
address of the next node (or none). -/
structure SNode (α : Type) where
  datum : α
  tail : Option Nat
deriving DecidableEq

instance {α : Type} [Inhabited α] : Inhabited (SNode α) := ⟨⟨default, none⟩⟩

/-- The arena of allocated nodes, indexed by address. -/
structure SHeap (α : Type) where
  nodes : List (SNode α)
deriving DecidableEq

/-- Reads the abstract value sequence of the handle by chasing tail
links; `f` is a fuel bound (any `f` at least the chain length gives the
full chain). -/
def viewS {α : Type} [Inhabited α] : Nat → SHeap α → Option Nat → List α
  | _, _, none => []
  | 0, _, some _ => []
  | f + 1, h, some a =>
    (h.nodes.getD a default).datum :: viewS f h (h.nodes.getD a default).tail

/-- ImmutableList.hpp `tail` over the heap model:
`if (null(xs)) throw xs; return xs->_tail;`.  The body performs no
store, so the heap component of the result is the input heap, and the
returned handle is exactly the address stored in the node's tail field
(shared, no new node).  `none` models the throw. -/
def tailImm {α : Type} [Inhabited α] (h : SHeap α) :
    Option Nat → Option (SHeap α × Option Nat)
  | none => none
  | some a => some (h, (h.nodes.getD a default).tail)

/-- Overwrites the tail field of the node at address `a`. -/
def setTailS {α : Type} [Inhabited α] (h : SHeap α) (a : Nat)
    (t : Option Nat) : SHeap α :=
  ⟨h.nodes.set a { h.nodes.getD a default with tail := t }⟩

/-- `tail` of the shared-pointer transparent-move variant
(first header of `ListTransparentMove.hpp`):
`if (null(xs)) throw xs; return std::move(xs->_tail);`.  The returned
list is move-constructed from the node's tail member, which nulls that
member: the node is mutated in place. -/
def tailTm {α : Type} [Inhabited α] (h : SHeap α) :
    Option Nat → Option (SHeap α × Option Nat)
  | none => none
  | some a => some (setTailS h a none, (h.nodes.getD a default).tail)

theorem getElem?_set_self {β : Type} (l : List β) (i : Nat) (b : β)
    (hi : i < l.length) : (l.set i b)[i]? = some b := by
  induction l generalizing i with
  | nil => simp at hi
  | cons x t ih =>
    cases i with
    | zero => simp
    | succ i => simpa using ih i (Nat.lt_of_succ_lt_succ hi)

/-!
Heap model for the canonical reference-counted class `prelude::list`
(second header of `ListTransparentMove.hpp`; the same class appears in
`part_003`'s companion header).  Here the counts are explicit: a node
stores `_refs`, `_head` and `_tail`; a freed slot is `none`.
-/

/-- A `prelude::list::node`: reference count, element value, tail
address. -/
structure RNode (α : Type) where
  refs : Nat
  head : α
  tail : Option Nat
deriving DecidableEq

/-- The arena of node slots; a slot is `none` once its node was
deleted. -/
structure RHeap (α : Type) where
  nodes : List (Option (RNode α))
deriving DecidableEq

/-- Reads the slot at address `a`. -/
def getNodeR {α : Type} (h : RHeap α) (a : Nat) : Option (RNode α) :=
  h.nodes.getD a none

/-- Replaces the slot at address `a`. -/
def setNodeR {α : Type} (h : RHeap α) (a : Nat) (n : Option (RNode α)) :
    RHeap α :=
  ⟨h.nodes.set a n⟩

/-- `list::acquire`: `if (n) { ++(n->_refs); } return n;`. -/
def acquireR {α : Type} (h : RHeap α) : Option Nat → RHeap α
  | none => h
  | some a =>
    match getNodeR h a with
    | none => h
    | some nd => setNodeR h a (some { nd with refs := nd.refs + 1 })

/-- `list::release` with explicit fuel for the destruction cascade:
`if (n) { if (!--(n->_refs)) { delete n; } }`; deleting a node runs
`~node`, which releases the stored tail, cascading down the chain. -/
def releaseF {α : Type} : Nat → RHeap α → Option Nat → RHeap α
  | _, h, none => h
  | 0, h, some _ => h
  | f + 1, h, some a =>
    match getNodeR h a with
    | none => h
    | some nd =>
      if nd.refs ≤ 1 then releaseF f (setNodeR h a none) nd.tail
      else setNodeR h a (some { nd with refs := nd.refs - 1 })

/-- `list::release` on a heap; the heap size bounds every chain length,
so it is enough fuel for any cascade. -/
def releaseR {α : Type} (h : RHeap α) (n : Option Nat) : RHeap α :=
  releaseF h.nodes.length h n

/-- `list::operator= ( list const& )`:
`if ( _rep != xs._rep ) { release( _rep ); _rep = acquire( xs._rep ); }
return *this;`.  Result: the heap after the assignment and the
assigned-to handle's node pointer. -/
def copyAssign {α : Type} (h : RHeap α) (target source : Option Nat) :
    RHeap α × Option Nat :=
  if target = source then (h, target)
  else (acquireR (releaseR h target) source, source)

/-- The walk `auto to = zs._rep; while ( to->_tail ) { to = to->_tail; }`
to the address of the last node of the chain starting at `a`, with
fuel. -/
def lastAddrF {α : Type} : Nat → RHeap α → Nat → Nat
  | 0, _, a => a
  | f + 1, h, a =>
    match getNodeR h a with
    | none => a
    | some nd =>
      match nd.tail with
      | none => a
      | some b => lastAddrF f h b

/-- Overwrites the tail field of the live node at `a` (no release of the
old value: the source assigns `to->_tail` directly). -/
def setTailR {α : Type} (h : RHeap α) (a : Nat) (t : Option Nat) :
    RHeap α :=
  match getNodeR h a with
  | none => h
  | some nd => setNodeR h a (some { nd with tail := t })

/-- `operator+ ( list<A> &&, list<A> const& )` of `prelude::list`:
`if (null(xs)) return ys;` (return by value copy-constructs, acquiring);
otherwise `auto zs = std::move(xs);` (no count change), walk to the last
node, then `to->_tail = list<A>::acquire( ys._rep );` and return `zs`.
No reference count is ever inspected before the splice. -/
def appendMove {α : Type} (h : RHeap α) :
    Option Nat → Option Nat → RHeap α × Option Nat
  | none, ys => (acquireR h ys, ys)
  | some a, ys =>
    (setTailR (acquireR h ys) (lastAddrF h.nodes.length h a) ys, some a)

/-- Reads the abstract value sequence of a handle in the refcounted
heap, with fuel. -/
def viewR {α : Type} : Nat → RHeap α → Option Nat → List α
  | _, _, none => []
  | 0, _, some _ => []
  | f + 1, h, some a =>
    match getNodeR h a with
    | none => []
    | some nd => nd.head :: viewR f h nd.tail

/-- The reference count stored at address `a` (0 for a freed slot). -/
def refsAt {α : Type} (h : RHeap α) (a : Nat) : Nat :=
  match getNodeR h a with
  | none => 0
  | some nd => nd.refs

/-!
Claim theorems.
-/

/-- Concrete scenario for claim C1: the heap after
`list<int> a {1,2}; list<int> b = a; list<int> y {9};` — the head node
of the chain 1 → 2 is at address 0 with reference count 2 (handles `a`
and `b`), node 2 is at address 1, and the singleton 9 is at address 2. -/
def spliceHeap : RHeap Nat :=
  ⟨[some ⟨2, 1, some 1⟩, some ⟨1, 2, none⟩, some ⟨1, 9, none⟩]⟩

/-- Claim C1 (code bug): the rvalue append splice
`operator+ ( list<A> &&, list<A> const& )` never inspects a reference
count before relinking the last node's tail.  On a chain `[1,2]` whose
head node has refcount 2 (a second live handle `a` also owns it),
`std::move(b) + [9]` splices in place, and afterward the untouched
handle `a` reads `[1,2,9]` instead of `[1,2]`: the uniqueness check the
claim describes is absent and another live Handle's list value
changes. -/
theorem C1_splice_mutates_shared :
    refsAt spliceHeap 0 = 2
    ∧ viewR 3 spliceHeap (some 0) = [1, 2]
    ∧ (appendMove spliceHeap (some 0) (some 2)).2 = some 0
    ∧ viewR 3 (appendMove spliceHeap (some 0) (some 2)).1 (some 0)
        = [1, 2, 9] :=
  ⟨rfl, rfl, rfl, rfl⟩

/-- Concrete two-node heap for claim C2: the chain 1 → 2, handle at
address 0. -/
def tmHeap : SHeap Nat := ⟨[⟨1, some 1⟩, ⟨2, none⟩]⟩

/-- Claim C2 counterexample: `tail` of the transparent-move shared
pointer variant mutates the first node of `xs`.  Before the call the
handle reads `[1, 2]`; after `tail(xs)` the same handle reads only
`[1]` — the node's tail member was nulled, so xs is not unchanged. -/
theorem C2_counterexample :
    viewS 2 tmHeap (some 0) = [1, 2]
    ∧ (tailTm tmHeap (some 0)).map (fun p => viewS 2 p.1 (some 0))
        = some [1] :=
  ⟨rfl, rfl⟩

/-- Claim C2 (amended): the ImmutableList `tail` returns the stored
remainder address without touching the heap (sharing, no new node, xs
unchanged), while the transparent-move variant's `tail` returns the
same address but nulls the node's tail member, truncating xs to its
head element. -/
theorem C2_tail_behavior {α : Type} [Inhabited α] (h : SHeap α)
    (a f : Nat) (ha : a < h.nodes.length) :
    tailImm h (some a) = some (h, (h.nodes.getD a default).tail)
    ∧ tailTm h (some a)
        = some (setTailS h a none, (h.nodes.getD a default).tail)
    ∧ viewS (f + 1) (setTailS h a none) (some a)
        = [(h.nodes.getD a default).datum] := by
  refine ⟨rfl, rfl, ?_⟩
  simp [viewS, setTailS, getElem?_set_self _ _ _ ha]

/-- Witness for C2_tail_behavior at the concrete two-node heap. -/
theorem C2_tail_behavior_witness :
    tailImm tmHeap (some 0) = some (tmHeap, some 1)
    ∧ tailTm tmHeap (some 0) = some (setTailS tmHeap 0 none, some 1)
    ∧ viewS 1 (setTailS tmHeap 0 none) (some 0) = [1] :=
  C2_tail_behavior tmHeap 0 0 (by decide)

/-- Claim C3 counterexample: in ImmutableList.hpp both `head` and
`tail` on the empty list execute `throw xs`, so the propagated error is
the identical payload (the empty list value) for either operation — it
cannot carry which operation was invoked. -/
theorem C3_counterexample :
    headI (MList.nil : MList Nat) = .error .nil
    ∧ tailI (MList.nil : MList Nat) = .error .nil :=
  ⟨rfl, rfl⟩

/-- Claim C3 (amended): the canonical `prelude::list` operations raise,
on the empty list, a single error kind (`std::domain_error`) whose
message names the operation and states that the list was empty, and the
four messages are pairwise distinct; the ImmutableList variant instead
throws the empty list value itself, which identifies no operation. -/
theorem C3_prelude_errors :
    headP (MList.nil : MList Nat)
        = .error (.domainError ("prelude::head" ++ ": empty list"))
    ∧ tailP (MList.nil : MList Nat)
        = .error (.domainError ("prelude::tail" ++ ": empty list"))
    ∧ lastP (MList.nil : MList Nat)
        = .error (.domainError ("prelude::last" ++ ": empty list"))
    ∧ initP (MList.nil : MList Nat)
        = .error (.domainError ("prelude::init" ++ ": empty list"))
    ∧ PErr.domainError "prelude::head: empty list"
        ≠ .domainError "prelude::tail: empty list"
    ∧ PErr.domainError "prelude::head: empty list"
        ≠ .domainError "prelude::last: empty list"
    ∧ PErr.domainError "prelude::head: empty list"
        ≠ .domainError "prelude::init: empty list"
    ∧ PErr.domainError "prelude::tail: empty list"
        ≠ .domainError "prelude::last: empty list"
    ∧ PErr.domainError "prelude::tail: empty list"
        ≠ .domainError "prelude::init: empty list"
    ∧ PErr.domainError "prelude::last: empty list"
        ≠ .domainError "prelude::init: empty list" := by
  refine ⟨rfl, rfl, rfl, rfl, ?_, ?_, ?_, ?_, ?_, ?_⟩ <;> decide

/-- Claim C4: for every list xs and every k with 0 ≤ k ≤ length(xs),
append(take(k, xs), drop(k, xs)) is structurally equal to xs. -/
theorem C4_take_drop_append {α : Type} (xs : MList α) (k : Nat)
    (_hk : k ≤ lengthImm xs) :
    appendImm (takeImm k xs) (dropImm k xs) = xs := by
  apply MList.toList_injective
  rw [toList_appendImm, toList_takeImm, toList_dropImm,
    List.take_append_drop]

/-- Witness for C4_take_drop_append at xs = [1,2], k = 1. -/
theorem C4_take_drop_append_witness :
    appendImm (takeImm 1 (MList.cons 1 (MList.cons 2 MList.nil)))
        (dropImm 1 (MList.cons 1 (MList.cons 2 MList.nil)))
      = MList.cons 1 (MList.cons 2 MList.nil) :=
  C4_take_drop_append (MList.cons 1 (MList.cons 2 MList.nil)) 1
    (by decide)

/-- Claim C5 counterexample: the ImmutableList.hpp renderer emits its
whole output inside `if (n) { ... }`, so the empty list renders as the
empty string, not as the two characters "[]". -/
theorem C5_counterexample :
    renderImm (fun n => toString n) (MList.nil : MList Nat) = ""
    ∧ ("" : String) ≠ "[]" :=
  ⟨rfl, by decide⟩

/-- Claim C5 (amended): the canonical `prelude::list` renderer produces
`[`, the element values comma-separated in list order, `]` for every
list — the empty list renders exactly "[]" — and the ImmutableList
renderer agrees on every non-empty list but renders the empty list as
the empty string. -/
theorem C5_render {α : Type} (s : α → String) (xs : MList α) (x : α)
    (t : MList α) :
    renderP s xs = specRender s xs
    ∧ renderP s (MList.nil : MList α) = "[]"
    ∧ renderImm s (MList.cons x t) = renderP s (MList.cons x t)
    ∧ renderImm s (MList.nil : MList α) = "" := by
  refine ⟨?_, rfl, rfl, rfl⟩
  cases xs with
  | nil => rfl
  | cons y u =>
    simp only [renderP, specRender, ← renderRest_commaSep]
    simp [String.append_assoc]

/-- Claim C6 counterexample: `take(3, [1,2])` returns the whole list
`[1,2]`, not the empty list, in the ImmutableList implementation; and
the part_008 variant of `take` returns `xs` itself (here the non-empty
`[1]`), not the empty list, when k == 0. -/
theorem C6_counterexample :
    takeImm 3 (MList.cons 1 (MList.cons 2 MList.nil))
        = MList.cons 1 (MList.cons 2 MList.nil)
    ∧ MList.cons 1 (MList.cons 2 MList.nil) ≠ (MList.nil : MList Nat)
    ∧ takeV8 0 (MList.cons 1 MList.nil) ≠ (MList.nil : MList Nat) :=
  ⟨rfl, by decide, by decide⟩

theorem takeLoopV8_eq_takeImm {α : Type} (k : Nat) (t : MList α) :
    takeLoopV8 k t = takeImm k t := by
  induction t generalizing k with
  | nil => cases k <;> rfl
  | cons x u ih =>
    cases k with
    | zero => rfl
    | succ k => simp [takeLoopV8, takeImm, ih]

/-- Claim C6 (amended): `take(k, xs)` returns the `min(k, length(xs))`
leading elements as a new chain; it returns the empty list when xs is
empty, and — in the ImmutableList implementation — when k == 0; the
part_008 / part_004 variant instead returns xs itself when k == 0; and
when k is at least length(xs) the result is all of xs, not the empty
list. -/
theorem C6_take_behavior {α : Type} (k : Nat) (xs : MList α) :
    MList.toList (takeImm k xs) = (MList.toList xs).take k
    ∧ takeImm 0 xs = MList.nil
    ∧ takeImm k (MList.nil : MList α) = MList.nil
    ∧ (lengthImm xs ≤ k → takeImm k xs = xs)
    ∧ takeV8 0 xs = xs
    ∧ MList.toList (takeV8 (k + 1) xs) = (MList.toList xs).take (k + 1) := by
  refine ⟨toList_takeImm k xs, rfl, ?_, ?_, rfl, ?_⟩
  · cases k <;> rfl
  · intro hk
    apply MList.toList_injective
    rw [toList_takeImm]
    apply List.take_of_length_le
    rw [← toList_lengthImm]
    exact hk
  · cases xs with
    | nil => rfl
    | cons y u =>
      simp [takeV8, takeLoopV8_eq_takeImm, MList.toList, toList_takeImm]

/-- Witness for C6_take_behavior at k = 3, xs = [1,2], discharging the
length hypothesis of the fourth conjunct. -/
theorem C6_take_behavior_witness :
    takeImm 3 (MList.cons 1 (MList.cons 2 MList.nil))
      = MList.cons 1 (MList.cons 2 MList.nil) :=
  (C6_take_behavior 3 (MList.cons 1 (MList.cons 2 MList.nil))).2.2.2.1
    (by decide)

/-- Claim C7 (code bug): the part_008 / part_004 `init` copies every
remaining node, the last included — on `[1,2]` it returns `[1,2]` (two
elements), while the claim (and the ImmutableList implementation, shown
for contrast) requires all-but-last, `[1]`. -/
theorem C7_initV8_copies_all :
    initV8 (MList.cons 1 (MList.cons 2 MList.nil))
        = .ok (MList.cons 1 (MList.cons 2 MList.nil))
    ∧ MList.cons 1 (MList.cons 2 MList.nil) ≠ MList.cons 1 MList.nil
    ∧ initI (MList.cons 1 (MList.cons 2 MList.nil))
        = .ok (MList.cons 1 MList.nil) :=
  ⟨rfl, by decide, rfl⟩

/-- Claim C8: for every list xs, length(reverse(xs)) = length(xs) and
reverse(reverse(xs)) is structurally equal to xs. -/
theorem C8_reverse_properties {α : Type} (xs : MList α) :
    lengthImm (reverseImm xs) = lengthImm xs
    ∧ reverseImm (reverseImm xs) = xs := by
  constructor
  · rw [toList_lengthImm, toList_lengthImm, toList_reverseImm,
      List.length_reverse]
  · apply MList.toList_injective
    rw [toList_reverseImm, toList_reverseImm, List.reverse_reverse]

/-- Claim C9: indexed access is zero-based — for k < length(xs) it
returns the element at position k, and for k ≥ length(xs) the recursion
reaches the empty list and throws the empty-list value itself (the same
payload as for access on an empty list, with no index information). -/
theorem C9_index_access {α : Type} (xs : MList α) (k : Nat) (d : α) :
    (k < lengthImm xs → listIdx xs k = .ok ((MList.toList xs).getD k d))
    ∧ (lengthImm xs ≤ k → listIdx xs k = .error .nil) := by
  induction xs generalizing k with
  | nil =>
    constructor
    · intro hk
      simp [lengthImm] at hk
    · intro _
      rfl
  | cons x t ih =>
    cases k with
    | zero =>
      constructor
      · intro _
        rfl
      · intro hk
        simp [lengthImm] at hk
    | succ k =>
      constructor
      · intro hk
        have hk2 : k < lengthImm t := by
          simp [lengthImm] at hk
          omega
        simpa [listIdx, MList.toList] using (ih k).1 hk2
      · intro hk
        have hk2 : lengthImm t ≤ k := by
          simp [lengthImm] at hk
          omega
        simpa [listIdx] using (ih k).2 hk2

/-- Witness for C9_index_access: on [5,7], index 1 returns 7, and index
5 (out of range) throws the empty list value. -/
theorem C9_index_access_witness :
    listIdx (MList.cons 5 (MList.cons 7 MList.nil)) 1 = .ok 7
    ∧ listIdx (MList.cons 5 (MList.cons 7 MList.nil)) 5
        = .error .nil :=
  ⟨(C9_index_access (MList.cons 5 (MList.cons 7 MList.nil)) 1 0).1
      (by decide),
   (C9_index_access (MList.cons 5 (MList.cons 7 MList.nil)) 5 0).2
      (by decide)⟩

/-- Claim C10: copy-assigning a `prelude::list` from a source with the
same internal node pointer (self-assignment included) is a no-op: the
guard skips both the release of the old reference and the acquire of
the new one, so the handle and the whole heap — every reference count
included — are unchanged and nothing is released. -/
theorem C10_self_assign_noop {α : Type} (h : RHeap α) (r : Option Nat) :
    copyAssign h r r = (h, r) := by
  simp [copyAssign]
